import Mathlib

/-! Shallow embedding of the physics core of the `physics-is-fun` repository.

* `Sideview` embeds `src/sideview.py`: the `Photon` particle state, its
  `update` step (forward Euler with Newtonian + relativistic-correction
  force and the Kerr frame-dragging approximation), the per-frame
  update-and-filter pass of `main`, and the spawn constructor.
* `Raytrace` embeds the physics-relevant part of the fragment shader of
  `src/black_hole_raytracing.py`: the per-step bending force applied to a
  ray direction.

Python floats are modelled as real numbers; `math.sqrt` is `Real.sqrt`.
-/

namespace Sideview

/-- Constant `G = 1.0` from the configuration block of `sideview.py`. -/
noncomputable def G : ℝ := 1.0

/-- Constant `DT = 0.5` from the configuration block of `sideview.py`. -/
noncomputable def DT : ℝ := 0.5

/-- Constant `TRAIL_LENGTH = 100` from the configuration block of `sideview.py`. -/
def TRAIL_LENGTH : ℕ := 100

/-- Constant `WIDTH = 800` from the configuration block of `sideview.py`
(used as the escape bound in `Photon.update`). -/
noncomputable def WIDTH : ℝ := 800

/-- The state of one particle, the fields of class `Photon` in
`sideview.py` (`self.pos` is omitted: it is written in `__init__` and
never read; `self.vel` is the pair `(vx, vy)`). -/
structure Photon where
  x_raw : ℝ
  y_raw : ℝ
  vx : ℝ
  vy : ℝ
  history : List (ℝ × ℝ)
  active : Bool
  is_kerr : Bool
  hole_spin : ℝ
  dead : Bool

/-- Constructor `Photon.__init__(y, screen_width, is_kerr, hole_spin)`. -/
noncomputable def Photon.init (y screen_width : ℝ) (is_kerr : Bool) (hole_spin : ℝ) : Photon :=
  { x_raw := -screen_width / 2, y_raw := y, vx := 4.0, vy := 0.0,
    history := [], active := true, is_kerr := is_kerr,
    hole_spin := hole_spin, dead := false }

/-- Quantity `r2 = dx*dx + dy*dy` with `dx = x_raw`, `dy = y_raw` (`sideview.py`). -/
noncomputable def Photon.r2 (p : Photon) : ℝ := p.x_raw * p.x_raw + p.y_raw * p.y_raw

/-- Quantity `r = math.sqrt(r2)` (`sideview.py`). -/
noncomputable def Photon.r (p : Photon) : ℝ := Real.sqrt p.r2

/-- Quantity `Lz = dx * vel[1] - dy * vel[0]` (`sideview.py`). -/
noncomputable def Photon.Lz (p : Photon) : ℝ := p.x_raw * p.vy - p.y_raw * p.vx

/-- The `self.history.append(...)` followed by
`if len(self.history) > TRAIL_LENGTH: self.history.pop(0)` pattern:
appending is done by the caller, this is the conditional pop of the
oldest entry. -/
def trim (l : List (ℝ × ℝ)) : List (ℝ × ℝ) :=
  if TRAIL_LENGTH < l.length then l.tail else l

/-- The acceleration `(ax, ay)` computed by the "PHYSICS ENGINE" and
"KERR SPIN APPROXIMATION" sections of `Photon.update` in `sideview.py`
(lines 74-116), as a function of the fields it reads.  `dx, dy` is the
position, `vx, vy` the velocity. -/
noncomputable def Photon.accel (is_kerr : Bool) (hole_spin mass dx dy vx vy : ℝ) : ℝ × ℝ :=
  let r2 := dx * dx + dy * dy
  let r := Real.sqrt r2
  let rx := dx / r
  let ry := dy / r
  let Lz := dx * vy - dy * vx
  let h2 := Lz * Lz
  let f_mag0 := -(G * mass) / r2
  let gr_correction := -(3 * G * mass * h2) / r ^ 4
  let f_mag := f_mag0 + gr_correction
  let ax := f_mag * rx
  let ay := f_mag * ry
  if is_kerr = true ∧ hole_spin ≠ 0 then
    let alignment : ℝ :=
      if Lz ≠ 0 then
        (Lz / |Lz|) * (if hole_spin ≠ 0 then hole_spin / |hole_spin| else 0)
      else 0
    let drag_mag := (2 * hole_spin * mass) / r ^ 3
    let ax1 := ax + -ry * drag_mag * 0.5
    let ay1 := ay + rx * drag_mag * 0.5
    let spin_factor := 1.0 - alignment * 0.3 * |hole_spin|
    let gr_diff := gr_correction * (spin_factor - 1.0)
    (ax1 + gr_diff * rx, ay1 + gr_diff * ry)
  else
    (ax, ay)

/-- Method `Photon.update(mass, center_x, center_y)` from `sideview.py`
(lines 51-127): early return when inactive; append to `history` (with
FIFO trim); capture test `r < Rs` with `Rs = 2*mass`; acceleration
(`Photon.accel`); explicit Euler step; escape kill at distance `WIDTH`. -/
noncomputable def Photon.update (p : Photon) (mass center_x center_y : ℝ) : Photon :=
  if p.active = false then p
  else
    let hist := trim (p.history ++ [(p.x_raw + center_x, p.y_raw + center_y)])
    if p.r < 2 * mass then
      { p with history := hist, active := false }
    else
      let a := Photon.accel p.is_kerr p.hole_spin mass p.x_raw p.y_raw p.vx p.vy
      let vx := p.vx + a.1 * DT
      let vy := p.vy + a.2 * DT
      let x := p.x_raw + vx * DT
      let y := p.y_raw + vy * DT
      { p with
        history := hist
        vx := vx
        vy := vy
        x_raw := x
        y_raw := y
        dead := if Real.sqrt (x ^ 2 + y ^ 2) > WIDTH then true else p.dead }

/-- Iterated update (the same particle stepped over successive frames
with fixed `mass` and center, as `main` does with center `(0, 0)`). -/
noncomputable def Photon.updateIter (p : Photon) (mass cx cy : ℝ) : ℕ → Photon
  | 0 => p
  | n + 1 => (p.updateIter mass cx cy n).update mass cx cy

/-- A sequence of later calls to `Photon.update`, each with its own
`(mass, center_x, center_y)` arguments. -/
noncomputable def updateSeq (args : List (ℝ × ℝ × ℝ)) (p : Photon) : Photon :=
  args.foldl (fun q a => q.update a.1 a.2.1 a.2.2) p

/-- One per-frame pass over a particle collection in `main`
(`sideview.py` lines 223-225): update every particle, then keep exactly
the particles whose `dead` flag is not set. -/
noncomputable def framePass (mass : ℝ) (ps : List Photon) : List Photon :=
  (ps.map (fun p => p.update mass 0 0)).filter (fun p => !p.dead)

/-- A run of successive frames: each frame first appends the newly
spawned particles to the collection (`sideview.py` lines 210-219), then
performs the update-and-filter pass. -/
noncomputable def runFrames (frames : List (ℝ × List Photon)) (ps : List Photon) : List Photon :=
  frames.foldl (fun acc fr => framePass fr.1 (acc ++ fr.2)) ps

/-- A concrete active particle at `(10, 0)` with the spawn velocity
`(4, 0)`: at `mass = 30` it sits inside `Rs = 60`. -/
noncomputable def pInside : Photon :=
  { x_raw := 10, y_raw := 0, vx := 4, vy := 0, history := [],
    active := true, is_kerr := false, hole_spin := 0, dead := false }

/-- A concrete inactive (captured) particle. -/
noncomputable def pInactive : Photon :=
  { x_raw := 10, y_raw := 0, vx := 4, vy := 0, history := [],
    active := false, is_kerr := false, hole_spin := 0, dead := false }

/-- A concrete active particle at `(100, 0)`: at `mass = 30` it is well
outside `Rs = 60`. -/
noncomputable def pFar : Photon :=
  { x_raw := 100, y_raw := 0, vx := 4, vy := 0, history := [],
    active := true, is_kerr := false, hole_spin := 0, dead := false }

/-- A concrete active Kerr-flagged particle at `(100, 0)` with spin `0.9`. -/
noncomputable def pKerrFar : Photon :=
  { x_raw := 100, y_raw := 0, vx := 4, vy := 0, history := [],
    active := true, is_kerr := true, hole_spin := 0.9, dead := false }

/-- Mirror reflection across the horizontal axis: `y ↦ -y`, `vy ↦ -vy`
(which negates `Lz`), spin negated, every recorded trail point reflected. -/
noncomputable def Photon.mirror (p : Photon) : Photon :=
  { x_raw := p.x_raw, y_raw := -p.y_raw, vx := p.vx, vy := -p.vy,
    history := p.history.map (fun q => (q.1, -q.2)),
    active := p.active, is_kerr := p.is_kerr,
    hole_spin := -p.hole_spin, dead := p.dead }

/-- Divisor audit for one call of `Photon.update`, following its control
flow: either the call returns before the force computation (inactive, or
captured by the `r < Rs` test at lines 70-72), or every divisor of the
force computation (lines 75-103: `r` in `rx, ry`, `r2` in the Newtonian
term, `r^4` in the relativistic correction, `r^3` in the drag term) is at
least `Rs` (respectively a positive power of such an `r`), and the sign
quotients divide by `abs Lz` and `abs hole_spin` only under the source's
guards `Lz != 0` and `hole_spin != 0`. -/
noncomputable def Photon.updateDivisorsOK (p : Photon) (mass : ℝ) : Prop :=
  p.active = false ∨ p.r < 2 * mass ∨
    (2 * mass ≤ p.r ∧ 0 < p.r ∧ p.r2 ≠ 0 ∧ p.r ^ 4 ≠ 0 ∧ p.r ^ 3 ≠ 0 ∧
      (p.Lz ≠ 0 → |p.Lz| ≠ 0) ∧ (p.hole_spin ≠ 0 → |p.hole_spin| ≠ 0))

end Sideview

namespace Raytrace

/-- Constant `BH_RADIUS = 1.0` (`black_hole_raytracing.py`, both the Python
constant and the shader macro). -/
noncomputable def BH_RADIUS : ℝ := 1.0

/-- A GLSL `vec3` with real components. -/
structure Vec3 where
  x : ℝ
  y : ℝ
  z : ℝ

/-- GLSL `length(v)`. -/
noncomputable def Vec3.len (v : Vec3) : ℝ := Real.sqrt (v.x * v.x + v.y * v.y + v.z * v.z)

/-- Scalar multiplication of a `vec3`. -/
noncomputable def Vec3.smul (t : ℝ) (v : Vec3) : Vec3 := ⟨t * v.x, t * v.y, t * v.z⟩

/-- GLSL unary minus on a `vec3`. -/
noncomputable def Vec3.neg (v : Vec3) : Vec3 := ⟨-v.x, -v.y, -v.z⟩

/-- GLSL `normalize(v) = v / length(v)`. -/
noncomputable def Vec3.normalize (v : Vec3) : Vec3 := Vec3.smul (1 / v.len) v

/-- The per-step bending force of the fragment shader's physics loop
(`black_hole_raytracing.py` line 97):
`vec3 force = -normalize(pos) * (3.0 / (r * r));` with `r = length(pos)`. -/
noncomputable def shaderForce (pos : Vec3) : Vec3 :=
  let r := pos.len
  Vec3.smul (3.0 / (r * r)) (Vec3.neg (Vec3.normalize pos))

/-- Divisor audit for one iteration of the shader's physics loop: either
the iteration breaks at the capture test `r < BH_RADIUS` (line 90) before
any division, or the divisors `r` (inside `normalize(pos)`) and `r * r`
of the force at line 97 are at least `BH_RADIUS` (respectively its
square) and nonzero. -/
noncomputable def shaderStepDivisorsOK (pos : Vec3) : Prop :=
  pos.len < BH_RADIUS ∨ (BH_RADIUS ≤ pos.len ∧ pos.len ≠ 0 ∧ pos.len * pos.len ≠ 0)

end Raytrace

namespace Sideview

/-- Square-root evaluation helper for concrete inputs. -/
lemma sqrtEval {a b : ℝ} (hb : 0 ≤ b) (hab : b * b = a) : Real.sqrt a = b := by
  rw [← hab, Real.sqrt_mul_self hb]

/-- `Photon.accel` outside the Kerr branch. -/
lemma accel_nonkerr {is_kerr : Bool} {s : ℝ} (m dx dy vx vy : ℝ)
    (h : ¬ (is_kerr = true ∧ s ≠ 0)) :
    Photon.accel is_kerr s m dx dy vx vy =
      ((-(G * m) / (dx * dx + dy * dy) +
          -(3 * G * m * ((dx * vy - dy * vx) * (dx * vy - dy * vx))) /
            Real.sqrt (dx * dx + dy * dy) ^ 4) * (dx / Real.sqrt (dx * dx + dy * dy)),
       (-(G * m) / (dx * dx + dy * dy) +
          -(3 * G * m * ((dx * vy - dy * vx) * (dx * vy - dy * vx))) /
            Real.sqrt (dx * dx + dy * dy) ^ 4) * (dy / Real.sqrt (dx * dx + dy * dy))) := by
  simp only [Photon.accel]
  rw [if_neg h]

/-- `Photon.accel` in the Kerr branch. -/
lemma accel_kerr {is_kerr : Bool} {s : ℝ} (m dx dy vx vy : ℝ)
    (hk : is_kerr = true) (hs : s ≠ 0) :
    Photon.accel is_kerr s m dx dy vx vy =
      ((-(G * m) / (dx * dx + dy * dy) +
          -(3 * G * m * ((dx * vy - dy * vx) * (dx * vy - dy * vx))) /
            Real.sqrt (dx * dx + dy * dy) ^ 4) * (dx / Real.sqrt (dx * dx + dy * dy)) +
        -(dy / Real.sqrt (dx * dx + dy * dy)) *
          ((2 * s * m) / Real.sqrt (dx * dx + dy * dy) ^ 3) * 0.5 +
        -(3 * G * m * ((dx * vy - dy * vx) * (dx * vy - dy * vx))) /
            Real.sqrt (dx * dx + dy * dy) ^ 4 *
          ((1.0 - (if dx * vy - dy * vx ≠ 0 then
              ((dx * vy - dy * vx) / |dx * vy - dy * vx|) * (s / |s|) else 0) * 0.3 * |s|)
            - 1.0) * (dx / Real.sqrt (dx * dx + dy * dy)),
       (-(G * m) / (dx * dx + dy * dy) +
          -(3 * G * m * ((dx * vy - dy * vx) * (dx * vy - dy * vx))) /
            Real.sqrt (dx * dx + dy * dy) ^ 4) * (dy / Real.sqrt (dx * dx + dy * dy)) +
        dx / Real.sqrt (dx * dx + dy * dy) *
          ((2 * s * m) / Real.sqrt (dx * dx + dy * dy) ^ 3) * 0.5 +
        -(3 * G * m * ((dx * vy - dy * vx) * (dx * vy - dy * vx))) /
            Real.sqrt (dx * dx + dy * dy) ^ 4 *
          ((1.0 - (if dx * vy - dy * vx ≠ 0 then
              ((dx * vy - dy * vx) / |dx * vy - dy * vx|) * (s / |s|) else 0) * 0.3 * |s|)
            - 1.0) * (dy / Real.sqrt (dx * dx + dy * dy))) := by
  simp only [Photon.accel]
  rw [if_pos (⟨hk, hs⟩ : is_kerr = true ∧ s ≠ 0), if_pos hs]

/-- An inactive particle is returned unchanged (`sideview.py` lines 52-53). -/
lemma update_inactive {p : Photon} (m cx cy : ℝ) (h : p.active = false) :
    p.update m cx cy = p := by
  unfold Photon.update
  rw [if_pos h]

/-- The capture branch (`sideview.py` lines 70-72): history appended,
`active` cleared, nothing else touched. -/
lemma update_captured {p : Photon} (m cx cy : ℝ) (h : p.active = true)
    (hr : p.r < 2 * m) :
    p.update m cx cy =
      { p with
        history := trim (p.history ++ [(p.x_raw + cx, p.y_raw + cy)])
        active := false } := by
  unfold Photon.update
  rw [if_neg (by simp [h]), if_pos hr]

/-- The live branch (`sideview.py` lines 74-127): Euler step with the
acceleration of `Photon.accel` and the escape kill test. -/
lemma update_live {p : Photon} (m cx cy : ℝ) (h : p.active = true)
    (hr : ¬ p.r < 2 * m) :
    p.update m cx cy =
      { p with
        history := trim (p.history ++ [(p.x_raw + cx, p.y_raw + cy)])
        vx := p.vx + (Photon.accel p.is_kerr p.hole_spin m p.x_raw p.y_raw p.vx p.vy).1 * DT
        vy := p.vy + (Photon.accel p.is_kerr p.hole_spin m p.x_raw p.y_raw p.vx p.vy).2 * DT
        x_raw := p.x_raw +
          (p.vx + (Photon.accel p.is_kerr p.hole_spin m p.x_raw p.y_raw p.vx p.vy).1 * DT) * DT
        y_raw := p.y_raw +
          (p.vy + (Photon.accel p.is_kerr p.hole_spin m p.x_raw p.y_raw p.vx p.vy).2 * DT) * DT
        dead :=
          if Real.sqrt
              ((p.x_raw +
                (p.vx + (Photon.accel p.is_kerr p.hole_spin m p.x_raw p.y_raw p.vx p.vy).1 * DT)
                  * DT) ^ 2 +
               (p.y_raw +
                (p.vy + (Photon.accel p.is_kerr p.hole_spin m p.x_raw p.y_raw p.vx p.vy).2 * DT)
                  * DT) ^ 2) > WIDTH
          then true else p.dead } := by
  unfold Photon.update
  rw [if_neg (by simp [h]), if_neg hr]

end Sideview

namespace Sideview

/-- A sequence of updates applied to an inactive particle is the identity. -/
lemma updateSeq_inactive {q : Photon} (h : q.active = false) :
    ∀ args : List (ℝ × ℝ × ℝ), updateSeq args q = q := by
  intro args
  induction args with
  | nil => rfl
  | cons a l ih =>
    show updateSeq l (q.update a.1 a.2.1 a.2.2) = q
    rw [update_inactive _ _ _ h]
    exact ih

/-- Concrete radius evaluations for the witness particles. -/
lemma pInside_r : pInside.r = 10 :=
  sqrtEval (by norm_num) (by norm_num [pInside, Photon.r2])

lemma pFar_r : pFar.r = 100 :=
  sqrtEval (by norm_num) (by norm_num [pFar, Photon.r2])

/-- C2: at any update where the radius is below `Rs = 2·mass`, the update
classifies the particle as captured (`active = false`) before applying any
motion (position and velocity unchanged), and every later call to
`Photon.update`, with any parameters, leaves the captured particle —
position, velocity, and history included — completely unchanged. -/
theorem c2_capture_freezes (p : Photon) (m cx cy : ℝ)
    (hact : p.active = true) (hr : p.r < 2 * m) :
    ((p.update m cx cy).active = false ∧
     (p.update m cx cy).x_raw = p.x_raw ∧ (p.update m cx cy).y_raw = p.y_raw ∧
     (p.update m cx cy).vx = p.vx ∧ (p.update m cx cy).vy = p.vy) ∧
    ∀ args : List (ℝ × ℝ × ℝ), updateSeq args (p.update m cx cy) = p.update m cx cy := by
  have hc := update_captured m cx cy hact hr
  have hinact : (p.update m cx cy).active = false := by rw [hc]
  exact ⟨by rw [hc]; exact ⟨rfl, rfl, rfl, rfl, rfl⟩, updateSeq_inactive hinact⟩

/-- Witness for C2 at a concrete captured particle. -/
theorem c2_witness :
    pInside.active = true ∧ pInside.r < 2 * 30 ∧
    (((pInside.update 30 0 0).active = false ∧
      (pInside.update 30 0 0).x_raw = pInside.x_raw ∧
      (pInside.update 30 0 0).y_raw = pInside.y_raw ∧
      (pInside.update 30 0 0).vx = pInside.vx ∧
      (pInside.update 30 0 0).vy = pInside.vy) ∧
     ∀ args : List (ℝ × ℝ × ℝ),
       updateSeq args (pInside.update 30 0 0) = pInside.update 30 0 0) :=
  ⟨rfl, by rw [pInside_r]; norm_num,
   c2_capture_freezes pInside 30 0 0 rfl (by rw [pInside_r]; norm_num)⟩

end Sideview

namespace Sideview

/-- An inactive, not-dead particle survives one update-and-filter pass
unchanged. -/
lemma mem_framePass_of_inactive {p : Photon} (m : ℝ) {ps : List Photon}
    (hact : p.active = false) (hdead : p.dead = false) (hmem : p ∈ ps) :
    p ∈ framePass m ps := by
  unfold framePass
  apply List.mem_filter.mpr
  refine ⟨?_, by simp [hdead]⟩
  have hup : p.update m 0 0 = p := update_inactive _ _ _ hact
  exact hup ▸ List.mem_map_of_mem _ hmem

/-- C9: once a particle is captured (`active = false`), its `dead` flag
can never become true — `Photon.update` returns it unchanged before the
escape-distance check — and, since the per-frame filter removes only
particles with `dead = true`, a captured particle stays in its collection
with frozen state through any run of later frames, whatever is spawned. -/
theorem c9_captured_never_removed (p : Photon) (m : ℝ) (ps : List Photon)
    (frames : List (ℝ × List Photon))
    (hact : p.active = false) (hdead : p.dead = false) :
    p.update m 0 0 = p ∧ (p ∈ ps → p ∈ runFrames frames ps) := by
  refine ⟨update_inactive _ _ _ hact, ?_⟩
  intro hmem
  show p ∈ List.foldl (fun acc fr => framePass fr.1 (acc ++ fr.2)) ps frames
  induction frames generalizing ps with
  | nil => exact hmem
  | cons fr rest ih =>
    exact ih _ (mem_framePass_of_inactive _ hact hdead (List.mem_append_left _ hmem))

/-- Witness for C9 at a concrete captured particle over one later frame. -/
theorem c9_witness :
    pInactive.active = false ∧ pInactive.dead = false ∧
    (pInactive.update 30 0 0 = pInactive ∧
     (pInactive ∈ [pInactive] → pInactive ∈ runFrames [(30, [])] [pInactive])) :=
  ⟨rfl, rfl, c9_captured_never_removed pInactive 30 [pInactive] [(30, [])] rfl rfl⟩

/-- The last element recorded by the append-and-trim history step is the
appended point. -/
lemma trim_getLast (h : List (ℝ × ℝ)) (a : ℝ × ℝ) :
    (trim (h ++ [a])).getLast? = some a := by
  unfold trim
  split_ifs with hlen
  · match h with
    | [] => simp [TRAIL_LENGTH] at hlen
    | b :: t =>
      show ((b :: (t ++ [a])).tail).getLast? = some a
      rw [List.tail_cons]
      exact List.getLast?_concat _
  · exact List.getLast?_concat _

/-- C10: on an active particle the current position is appended to
`history` before the capture test, so at a capturing step the point with
`r < Rs` is recorded: the trail can end strictly inside the horizon. -/
theorem c10_capture_point_recorded (p : Photon) (m cx cy : ℝ)
    (hact : p.active = true) :
    (p.update m cx cy).history.getLast? = some (p.x_raw + cx, p.y_raw + cy) ∧
    (p.r < 2 * m → (p.update m cx cy).active = false) := by
  constructor
  · by_cases hr : p.r < 2 * m
    · rw [update_captured m cx cy hact hr]; exact trim_getLast _ _
    · rw [update_live m cx cy hact hr]; exact trim_getLast _ _
  · intro hr; rw [update_captured m cx cy hact hr]

/-- Witness for C10: a concrete capturing step records a point at radius
`10`, strictly inside the horizon `Rs = 60`. -/
theorem c10_witness :
    pInside.active = true ∧
    ((pInside.update 30 0 0).history.getLast? =
        some (pInside.x_raw + 0, pInside.y_raw + 0) ∧
     (pInside.r < 2 * 30 → (pInside.update 30 0 0).active = false)) :=
  ⟨rfl, c10_capture_point_recorded pInside 30 0 0 rfl⟩

/-- C7: with `mass > 0`, no division by zero is reachable: the particle
integrator's force divisors are guarded by the `r < Rs` capture test and
the sign quotients by the `Lz != 0` and `hole_spin != 0` tests, and the
ray-marcher's force divisors are guarded by the `r < BH_RADIUS` test. -/
theorem c7_no_division_by_zero (p : Photon) (m : ℝ) (pos : Raytrace.Vec3)
    (hm : 0 < m) :
    p.updateDivisorsOK m ∧ Raytrace.shaderStepDivisorsOK pos := by
  constructor
  · by_cases hact : p.active = false
    · exact Or.inl hact
    · by_cases hr : p.r < 2 * m
      · exact Or.inr (Or.inl hr)
      · refine Or.inr (Or.inr ?_)
        have h1 : 2 * m ≤ p.r := not_lt.mp hr
        have h2 : 0 < p.r := lt_of_lt_of_le (by linarith) h1
        refine ⟨h1, h2, ?_, pow_ne_zero _ (ne_of_gt h2), pow_ne_zero _ (ne_of_gt h2),
          fun h => abs_ne_zero.mpr h, fun h => abs_ne_zero.mpr h⟩
        intro h0
        simp only [Photon.r, h0, Real.sqrt_zero] at h2
        exact lt_irrefl 0 h2
  · by_cases hcap : pos.len < Raytrace.BH_RADIUS
    · exact Or.inl hcap
    · have h1 : Raytrace.BH_RADIUS ≤ pos.len := not_lt.mp hcap
      have h2 : (0 : ℝ) < pos.len :=
        lt_of_lt_of_le (by norm_num [Raytrace.BH_RADIUS]) h1
      exact Or.inr ⟨h1, ne_of_gt h2, mul_ne_zero (ne_of_gt h2) (ne_of_gt h2)⟩

/-- Witness for C7 at a concrete particle, mass and ray position. -/
theorem c7_witness :
    (0 : ℝ) < 30 ∧
    (pInside.updateDivisorsOK 30 ∧ Raytrace.shaderStepDivisorsOK ⟨0, 0, 0⟩) :=
  ⟨by norm_num, c7_no_division_by_zero pInside 30 ⟨0, 0, 0⟩ (by norm_num)⟩

end Sideview

namespace Sideview

/-- With `hole_spin = 0` the Kerr branch of the acceleration is skipped,
whatever the flag. -/
lemma accel_spin_zero (k : Bool) (m dx dy vx vy : ℝ) :
    Photon.accel k 0 m dx dy vx vy = Photon.accel false 0 m dx dy vx vy := by
  rw [accel_nonkerr m dx dy vx vy (by simp), accel_nonkerr m dx dy vx vy (by simp)]

/-- C5: for every state, `Photon.update` with the Kerr flag set and
`hole_spin = 0` produces exactly the same updated position, velocity,
history, `active` and `dead` as with the Kerr flag unset: with zero spin
Kerr collapses to Schwarzschild. -/
theorem c5_zero_spin_collapses (p : Photon) (m cx cy : ℝ) :
    (({ p with is_kerr := true, hole_spin := 0 } : Photon).update m cx cy).x_raw =
      (({ p with is_kerr := false, hole_spin := 0 } : Photon).update m cx cy).x_raw ∧
    (({ p with is_kerr := true, hole_spin := 0 } : Photon).update m cx cy).y_raw =
      (({ p with is_kerr := false, hole_spin := 0 } : Photon).update m cx cy).y_raw ∧
    (({ p with is_kerr := true, hole_spin := 0 } : Photon).update m cx cy).vx =
      (({ p with is_kerr := false, hole_spin := 0 } : Photon).update m cx cy).vx ∧
    (({ p with is_kerr := true, hole_spin := 0 } : Photon).update m cx cy).vy =
      (({ p with is_kerr := false, hole_spin := 0 } : Photon).update m cx cy).vy ∧
    (({ p with is_kerr := true, hole_spin := 0 } : Photon).update m cx cy).history =
      (({ p with is_kerr := false, hole_spin := 0 } : Photon).update m cx cy).history ∧
    (({ p with is_kerr := true, hole_spin := 0 } : Photon).update m cx cy).active =
      (({ p with is_kerr := false, hole_spin := 0 } : Photon).update m cx cy).active ∧
    (({ p with is_kerr := true, hole_spin := 0 } : Photon).update m cx cy).dead =
      (({ p with is_kerr := false, hole_spin := 0 } : Photon).update m cx cy).dead := by
  by_cases hact : p.active = true
  · by_cases hr : p.r < 2 * m
    · rw [update_captured (p := { p with is_kerr := true, hole_spin := 0 }) m cx cy hact hr,
        update_captured (p := { p with is_kerr := false, hole_spin := 0 }) m cx cy hact hr]
      exact ⟨rfl, rfl, rfl, rfl, rfl, rfl, rfl⟩
    · rw [update_live (p := { p with is_kerr := true, hole_spin := 0 }) m cx cy hact hr,
        update_live (p := { p with is_kerr := false, hole_spin := 0 }) m cx cy hact hr]
      dsimp only
      rw [accel_spin_zero]
      exact ⟨rfl, rfl, rfl, rfl, rfl, rfl, rfl⟩
  · have hact' : p.active = false := by
      cases h : p.active
      · rfl
      · exact absurd h hact
    rw [update_inactive (p := { p with is_kerr := true, hole_spin := 0 }) m cx cy hact',
      update_inactive (p := { p with is_kerr := false, hole_spin := 0 }) m cx cy hact']
    exact ⟨rfl, rfl, rfl, rfl, rfl, rfl, rfl⟩

end Sideview

namespace Sideview

/-- On an active particle, the update appends the recorded position and
trims, in both the captured and the live branch. -/
lemma update_history_of_active {p : Photon} (m cx cy : ℝ) (h : p.active = true) :
    (p.update m cx cy).history = trim (p.history ++ [(p.x_raw + cx, p.y_raw + cy)]) := by
  by_cases hr : p.r < 2 * m
  · rw [update_captured m cx cy h hr]
  · rw [update_live m cx cy h hr]

/-- The append-and-trim step on a suffix of a list of length `n` yields
the corresponding suffix of the extended list. -/
lemma trim_drop_append {l : List (ℝ × ℝ)} {n : ℕ} (hl : l.length = n) (x : ℝ × ℝ) :
    trim (l.drop (n - TRAIL_LENGTH) ++ [x]) = (l ++ [x]).drop (n + 1 - TRAIL_LENGTH) := by
  unfold trim
  simp only [TRAIL_LENGTH] at *
  have hdlen : (l.drop (n - 100)).length = n - (n - 100) := by
    rw [List.length_drop, hl]
  by_cases hn : n < 100
  · have h1 : n - 100 = 0 := by omega
    have h2 : n + 1 - 100 = 0 := by omega
    rw [h1, h2, List.drop_zero, List.drop_zero, if_neg]
    rw [List.length_append, hl]
    simp
    omega
  · have h100 : 100 ≤ n := le_of_not_lt hn
    rw [if_pos]
    · rw [← List.drop_one, List.drop_append_of_le_length (by omega),
        List.drop_drop, List.drop_append_of_le_length (by omega)]
      have harith : n - 100 + 1 = n + 1 - 100 := by omega
      rw [harith]
    · rw [List.length_append, hdlen]
      simp
      omega

/-- History contents after `n` active steps from an empty history: the
suffix of the chronological list of recorded positions past the cap. -/
lemma updateIter_history (p : Photon) (m cx cy : ℝ) (hhist : p.history = []) :
    ∀ n, (∀ i, i < n → (p.updateIter m cx cy i).active = true) →
      (p.updateIter m cx cy n).history =
        ((List.range n).map (fun i =>
          ((p.updateIter m cx cy i).x_raw + cx,
           (p.updateIter m cx cy i).y_raw + cy))).drop (n - TRAIL_LENGTH) := by
  intro n
  induction n with
  | zero => intro _; simpa using hhist
  | succ k ih =>
    intro hact
    have hk := ih (fun i hi => hact i (Nat.lt_succ_of_lt hi))
    have hstep : (p.updateIter m cx cy (k + 1)).history =
        trim ((p.updateIter m cx cy k).history ++
          [((p.updateIter m cx cy k).x_raw + cx, (p.updateIter m cx cy k).y_raw + cy)]) := by
      show ((p.updateIter m cx cy k).update m cx cy).history = _
      exact update_history_of_active m cx cy (hact k (Nat.lt_succ_self k))
    rw [hstep, hk,
      trim_drop_append (by rw [List.length_map, List.length_range]) _]
    congr 1
    rw [List.range_succ, List.map_append, List.map_singleton]

/-- C6: after every update the history length never exceeds
`TRAIL_LENGTH = 100`; eviction is FIFO; and after strictly more active
updates than the cap the history holds exactly the cap many entries,
namely the most recent recorded positions in chronological, oldest-first
order (the suffix past `n - 100` of the full chronological list). -/
theorem c6_history_bound (p : Photon) (m cx cy : ℝ) (n : ℕ)
    (hhist : p.history = [])
    (hact : ∀ i, i < n → (p.updateIter m cx cy i).active = true) :
    (p.updateIter m cx cy n).history =
      ((List.range n).map (fun i =>
        ((p.updateIter m cx cy i).x_raw + cx,
         (p.updateIter m cx cy i).y_raw + cy))).drop (n - TRAIL_LENGTH) ∧
    (p.updateIter m cx cy n).history.length ≤ TRAIL_LENGTH ∧
    (TRAIL_LENGTH < n → (p.updateIter m cx cy n).history.length = TRAIL_LENGTH) := by
  have hmain := updateIter_history p m cx cy hhist n hact
  have hlen : (p.updateIter m cx cy n).history.length = n - (n - TRAIL_LENGTH) := by
    rw [hmain, List.length_drop, List.length_map, List.length_range]
  refine ⟨hmain, ?_, ?_⟩
  · rw [hlen]; omega
  · intro hcap; rw [hlen]; omega

/-- Witness for C6 at a concrete spawned particle after one active step. -/
theorem c6_witness :
    (Photon.init 0 800 false 0).history = [] ∧
    (∀ i, i < 1 → ((Photon.init 0 800 false 0).updateIter 30 0 0 i).active = true) ∧
    (((Photon.init 0 800 false 0).updateIter 30 0 0 1).history =
      ((List.range 1).map (fun i =>
        (((Photon.init 0 800 false 0).updateIter 30 0 0 i).x_raw + 0,
         ((Photon.init 0 800 false 0).updateIter 30 0 0 i).y_raw + 0))).drop
        (1 - TRAIL_LENGTH) ∧
     ((Photon.init 0 800 false 0).updateIter 30 0 0 1).history.length ≤ TRAIL_LENGTH ∧
     (TRAIL_LENGTH < 1 →
       ((Photon.init 0 800 false 0).updateIter 30 0 0 1).history.length = TRAIL_LENGTH)) := by
  have hact : ∀ i, i < 1 → ((Photon.init 0 800 false 0).updateIter 30 0 0 i).active = true := by
    intro i hi
    have h0 : i = 0 := by omega
    subst h0
    rfl
  exact ⟨rfl, hact, c6_history_bound (Photon.init 0 800 false 0) 30 0 0 1 rfl hact⟩

end Sideview

namespace Sideview

/-- The source's sign idiom `x / abs(x)` agrees with the sign function on
nonzero inputs. -/
lemma div_abs_eq_sign {x : ℝ} (hx : x ≠ 0) : x / |x| = Real.sign x := by
  rcases hx.lt_or_lt with h | h
  · rw [abs_of_neg h, div_neg, div_self hx, Real.sign_of_neg h]
  · rw [abs_of_pos h, div_self hx, Real.sign_of_pos h]

/-- The source's guarded alignment computation equals the product of the
two signs (with the `Lz = 0` case giving `0`). -/
lemma alignment_eq_sign (x : ℝ) {y : ℝ} (hy : y ≠ 0) :
    (if x ≠ 0 then (x / |x|) * (y / |y|) else 0) = Real.sign x * Real.sign y := by
  split_ifs with hx
  · rw [div_abs_eq_sign hx, div_abs_eq_sign hy]
  · rw [not_not] at hx
    rw [hx, Real.sign_zero, zero_mul]

end Sideview

namespace Sideview

/-- The first acceleration component, rearranged as in the specification:
Newtonian plus relativistic correction along the unit radial vector, and,
exactly in the Kerr case, the tangential frame-dragging push plus the
alignment-scaled radial delta. -/
lemma accel_fst_formula (p : Photon) (m : ℝ) :
    (Photon.accel p.is_kerr p.hole_spin m p.x_raw p.y_raw p.vx p.vy).1 =
      (-(G * m) / p.r ^ 2 + -(3 * G * m * p.Lz ^ 2) / p.r ^ 4) * (p.x_raw / p.r) +
      (if p.is_kerr = true ∧ p.hole_spin ≠ 0 then
          0.5 * (2 * p.hole_spin * m / p.r ^ 3) * (-(p.y_raw / p.r)) +
          -(3 * G * m * p.Lz ^ 2) / p.r ^ 4 *
            (-(Real.sign p.Lz * Real.sign p.hole_spin) * 0.3 * |p.hole_spin|) *
            (p.x_raw / p.r)
        else 0) := by
  have hsq : Real.sqrt (p.x_raw * p.x_raw + p.y_raw * p.y_raw) ^ 2 =
      p.x_raw * p.x_raw + p.y_raw * p.y_raw :=
    Real.sq_sqrt (add_nonneg (mul_self_nonneg _) (mul_self_nonneg _))
  simp only [Photon.r, Photon.r2, Photon.Lz]
  by_cases hkerr : p.is_kerr = true ∧ p.hole_spin ≠ 0
  · rw [accel_kerr _ _ _ _ _ hkerr.1 hkerr.2, if_pos hkerr,
      alignment_eq_sign _ hkerr.2]
    dsimp only
    rw [hsq]
    ring
  · rw [accel_nonkerr _ _ _ _ _ hkerr, if_neg hkerr]
    dsimp only
    rw [hsq]
    ring

/-- Second acceleration component, same rearrangement. -/
lemma accel_snd_formula (p : Photon) (m : ℝ) :
    (Photon.accel p.is_kerr p.hole_spin m p.x_raw p.y_raw p.vx p.vy).2 =
      (-(G * m) / p.r ^ 2 + -(3 * G * m * p.Lz ^ 2) / p.r ^ 4) * (p.y_raw / p.r) +
      (if p.is_kerr = true ∧ p.hole_spin ≠ 0 then
          0.5 * (2 * p.hole_spin * m / p.r ^ 3) * (p.x_raw / p.r) +
          -(3 * G * m * p.Lz ^ 2) / p.r ^ 4 *
            (-(Real.sign p.Lz * Real.sign p.hole_spin) * 0.3 * |p.hole_spin|) *
            (p.y_raw / p.r)
        else 0) := by
  have hsq : Real.sqrt (p.x_raw * p.x_raw + p.y_raw * p.y_raw) ^ 2 =
      p.x_raw * p.x_raw + p.y_raw * p.y_raw :=
    Real.sq_sqrt (add_nonneg (mul_self_nonneg _) (mul_self_nonneg _))
  simp only [Photon.r, Photon.r2, Photon.Lz]
  by_cases hkerr : p.is_kerr = true ∧ p.hole_spin ≠ 0
  · rw [accel_kerr _ _ _ _ _ hkerr.1 hkerr.2, if_pos hkerr,
      alignment_eq_sign _ hkerr.2]
    dsimp only
    rw [hsq]
    ring
  · rw [accel_nonkerr _ _ _ _ _ hkerr, if_neg hkerr]
    dsimp only
    rw [hsq]
    ring

end Sideview

namespace Sideview

/-- C1: for a live particle with `mass > 0` and `r ≥ Rs = 2·mass`, one
update applies the acceleration that is the sum of the Newtonian term
`-G·mass/r²` along the unit radial vector, the relativistic correction
`-3·G·mass·Lz²/r⁴` along the unit radial vector, and — exactly when the
Kerr flag is set and the spin is nonzero — the tangential frame-dragging
term of magnitude `0.5·(2·spin·mass/r³)` perpendicular to the radial
direction plus the radial delta `grc·(-alignment·0.3·|spin|)` with
`alignment = sign(Lz)·sign(spin)`; the velocity advances by `a·DT` and
the position by the updated velocity times `DT` (explicit forward Euler). -/
theorem c1_update_formula (p : Photon) (m cx cy : ℝ)
    (hact : p.active = true) (_hm : 0 < m) (hr : 2 * m ≤ p.r) :
    (p.update m cx cy).vx = p.vx +
      ((-(G * m) / p.r ^ 2 + -(3 * G * m * p.Lz ^ 2) / p.r ^ 4) * (p.x_raw / p.r) +
       (if p.is_kerr = true ∧ p.hole_spin ≠ 0 then
           0.5 * (2 * p.hole_spin * m / p.r ^ 3) * (-(p.y_raw / p.r)) +
           -(3 * G * m * p.Lz ^ 2) / p.r ^ 4 *
             (-(Real.sign p.Lz * Real.sign p.hole_spin) * 0.3 * |p.hole_spin|) *
             (p.x_raw / p.r)
         else 0)) * DT ∧
    (p.update m cx cy).vy = p.vy +
      ((-(G * m) / p.r ^ 2 + -(3 * G * m * p.Lz ^ 2) / p.r ^ 4) * (p.y_raw / p.r) +
       (if p.is_kerr = true ∧ p.hole_spin ≠ 0 then
           0.5 * (2 * p.hole_spin * m / p.r ^ 3) * (p.x_raw / p.r) +
           -(3 * G * m * p.Lz ^ 2) / p.r ^ 4 *
             (-(Real.sign p.Lz * Real.sign p.hole_spin) * 0.3 * |p.hole_spin|) *
             (p.y_raw / p.r)
         else 0)) * DT ∧
    (p.update m cx cy).x_raw = p.x_raw + (p.update m cx cy).vx * DT ∧
    (p.update m cx cy).y_raw = p.y_raw + (p.update m cx cy).vy * DT := by
  have hrne : ¬ p.r < 2 * m := not_lt.mpr hr
  rw [update_live m cx cy hact hrne]
  dsimp only
  rw [accel_fst_formula p m, accel_snd_formula p m]
  exact ⟨rfl, rfl, rfl, rfl⟩

/-- Witness for C1 at a concrete particle outside the horizon. -/
theorem c1_witness :
    pFar.active = true ∧ (0 : ℝ) < 30 ∧ 2 * 30 ≤ pFar.r ∧
    ((pFar.update 30 0 0).vx = pFar.vx +
      ((-(G * 30) / pFar.r ^ 2 + -(3 * G * 30 * pFar.Lz ^ 2) / pFar.r ^ 4) *
          (pFar.x_raw / pFar.r) +
       (if pFar.is_kerr = true ∧ pFar.hole_spin ≠ 0 then
           0.5 * (2 * pFar.hole_spin * 30 / pFar.r ^ 3) * (-(pFar.y_raw / pFar.r)) +
           -(3 * G * 30 * pFar.Lz ^ 2) / pFar.r ^ 4 *
             (-(Real.sign pFar.Lz * Real.sign pFar.hole_spin) * 0.3 * |pFar.hole_spin|) *
             (pFar.x_raw / pFar.r)
         else 0)) * DT ∧
     (pFar.update 30 0 0).vy = pFar.vy +
      ((-(G * 30) / pFar.r ^ 2 + -(3 * G * 30 * pFar.Lz ^ 2) / pFar.r ^ 4) *
          (pFar.y_raw / pFar.r) +
       (if pFar.is_kerr = true ∧ pFar.hole_spin ≠ 0 then
           0.5 * (2 * pFar.hole_spin * 30 / pFar.r ^ 3) * (pFar.x_raw / pFar.r) +
           -(3 * G * 30 * pFar.Lz ^ 2) / pFar.r ^ 4 *
             (-(Real.sign pFar.Lz * Real.sign pFar.hole_spin) * 0.3 * |pFar.hole_spin|) *
             (pFar.y_raw / pFar.r)
         else 0)) * DT ∧
     (pFar.update 30 0 0).x_raw = pFar.x_raw + (pFar.update 30 0 0).vx * DT ∧
     (pFar.update 30 0 0).y_raw = pFar.y_raw + (pFar.update 30 0 0).vy * DT) :=
  ⟨rfl, by norm_num, by rw [pFar_r]; norm_num,
   c1_update_formula pFar 30 0 0 rfl (by norm_num) (by rw [pFar_r]; norm_num)⟩

end Sideview

namespace Sideview

/-- FIFO trimming commutes with pointwise reflection of the trail. -/
lemma trim_map_mirror (l : List (ℝ × ℝ)) :
    trim (l.map (fun q => (q.1, -q.2))) = (trim l).map (fun q => (q.1, -q.2)) := by
  unfold trim
  rw [List.length_map]
  split_ifs with h
  · exact (List.map_tail _ _).symm
  · rfl

/-- Reflecting position, velocity and spin reflects the acceleration:
the first component is preserved, the second negated. -/
lemma accel_mirror (k : Bool) (s m x y vx vy : ℝ) :
    Photon.accel k (-s) m x (-y) vx (-vy) =
      ((Photon.accel k s m x y vx vy).1, -(Photon.accel k s m x y vx vy).2) := by
  have hrr : x * x + -y * -y = x * x + y * y := by ring
  have hLz : x * -vy - -y * vx = -(x * vy - y * vx) := by ring
  by_cases hks : k = true ∧ s ≠ 0
  · have hks' : k = true ∧ -s ≠ 0 := ⟨hks.1, neg_ne_zero.mpr hks.2⟩
    rw [accel_kerr _ _ _ _ _ hks'.1 hks'.2, accel_kerr _ _ _ _ _ hks.1 hks.2]
    rw [hrr, hLz]
    simp only [abs_neg, neg_ne_zero]
    have hA : (if x * vy - y * vx ≠ 0 then
          -(x * vy - y * vx) / |x * vy - y * vx| * (-s / |s|) else 0) =
        (if x * vy - y * vx ≠ 0 then
          (x * vy - y * vx) / |x * vy - y * vx| * (s / |s|) else 0) := by
      split_ifs with hLz0
      · ring
      · rfl
    rw [hA]
    simp only [Prod.mk.injEq]
    constructor <;> ring
  · have hks' : ¬ (k = true ∧ -s ≠ 0) := by
      intro hcon
      exact hks ⟨hcon.1, fun h0 => hcon.2 (by rw [h0, neg_zero])⟩
    rw [accel_nonkerr _ _ _ _ _ hks', accel_nonkerr _ _ _ _ _ hks]
    rw [hrr, hLz]
    simp only [Prod.mk.injEq]
    constructor <;> ring

end Sideview

namespace Sideview

/-- The mirrored radius is the original radius. -/
lemma mirror_r (p : Photon) : p.mirror.r = p.r := by
  simp only [Photon.r, Photon.r2, Photon.mirror]
  rw [show p.x_raw * p.x_raw + -p.y_raw * -p.y_raw =
    p.x_raw * p.x_raw + p.y_raw * p.y_raw from by ring]

/-- The append-and-trim history step commutes with the reflection. -/
lemma history_append_mirror (p : Photon) (cx cy : ℝ) :
    trim (p.mirror.history ++ [(p.mirror.x_raw + cx, p.mirror.y_raw + -cy)]) =
      (trim (p.history ++ [(p.x_raw + cx, p.y_raw + cy)])).map (fun q => (q.1, -q.2)) := by
  show trim (p.history.map (fun q => (q.1, -q.2)) ++ [(p.x_raw + cx, -p.y_raw + -cy)]) = _
  rw [show ([((p.x_raw + cx, -p.y_raw + -cy) : ℝ × ℝ)]) =
      ([((p.x_raw + cx, p.y_raw + cy) : ℝ × ℝ)]).map (fun q => (q.1, -q.2)) from by
    simp [neg_add]
    ring]
  rw [← List.map_append, trim_map_mirror]

/-- One update commutes with the mirror reflection (the vertical center
offset is negated along with the vertical axis). -/
lemma update_mirror (p : Photon) (m cx cy : ℝ) :
    p.mirror.update m cx (-cy) = (p.update m cx cy).mirror := by
  by_cases hact : p.active = true
  · by_cases hr : p.r < 2 * m
    · rw [update_captured m cx (-cy) (show p.mirror.active = true from hact)
        (by rw [mirror_r]; exact hr), update_captured m cx cy hact hr]
      simp only [Photon.mirror, Photon.mk.injEq, eq_self_iff_true, true_and, and_true]
      exact history_append_mirror p cx cy
    · rw [update_live m cx (-cy) (show p.mirror.active = true from hact)
        (by rw [mirror_r]; exact hr), update_live m cx cy hact hr]
      simp only [Photon.mirror]
      rw [accel_mirror]
      simp only [Photon.mk.injEq, eq_self_iff_true, true_and, and_true]
      refine ⟨by ring, by ring, history_append_mirror p cx cy, ?_⟩
      rw [show (-p.y_raw +
          (-p.vy + -(Photon.accel p.is_kerr p.hole_spin m p.x_raw p.y_raw p.vx p.vy).2 * DT)
            * DT) ^ 2 =
        (p.y_raw +
          (p.vy + (Photon.accel p.is_kerr p.hole_spin m p.x_raw p.y_raw p.vx p.vy).2 * DT)
            * DT) ^ 2 from by ring]
  · have hact' : p.active = false := by
      cases h : p.active
      · rfl
      · exact absurd h hact
    rw [update_inactive m cx (-cy) (show p.mirror.active = false from hact'),
      update_inactive m cx cy hact']

end Sideview

namespace Sideview

/-- C8: mirroring commutes with the update: reflecting a particle across
the horizontal axis (`y ↦ -y`, `vy ↦ -vy`, negating `Lz`), negating the
spin, and negating the vertical center offset, then stepping any number
of frames, yields exactly the reflection of the trajectory of the
original particle with the original spin — mirrored initial conditions
with opposite spin give mirror-image trajectories. -/
theorem c8_mirror_symmetry (p : Photon) (m cx cy : ℝ) (n : ℕ) :
    p.mirror.updateIter m cx (-cy) n = (p.updateIter m cx cy n).mirror := by
  induction n with
  | zero => rfl
  | succ k ih =>
    show (p.mirror.updateIter m cx (-cy) k).update m cx (-cy) = _
    rw [ih]
    exact update_mirror _ m cx cy

end Sideview

namespace Sideview

/-- The per-frame pass on a single particle: kept unless `dead`. -/
lemma framePass_singleton (m : ℝ) (p : Photon) :
    framePass m [p] =
      if (p.update m 0 0).dead = true then [] else [p.update m 0 0] := by
  unfold framePass
  simp only [List.map_cons, List.map_nil, List.filter]
  cases h : (p.update m 0 0).dead
  · simp [h]
  · simp [h]

/-- For a not-yet-dead particle, one update sets `dead` exactly when the
particle was live, not captured this step, and its new position lies
beyond the escape bound `WIDTH`. -/
lemma update_dead_iff (p : Photon) (m : ℝ) (hdead : p.dead = false) :
    (p.update m 0 0).dead = true ↔
      (p.active = true ∧ 2 * m ≤ p.r ∧
        WIDTH < Real.sqrt ((p.update m 0 0).x_raw ^ 2 + (p.update m 0 0).y_raw ^ 2)) := by
  by_cases hact : p.active = true
  · by_cases hr : p.r < 2 * m
    · rw [update_captured m 0 0 hact hr]
      dsimp only
      rw [hdead]
      simp only [Bool.false_eq_true, false_iff]
      intro hcon
      exact absurd hcon.2.1 (not_le.mpr hr)
    · rw [update_live m 0 0 hact hr]
      dsimp only
      split_ifs with hC
      · simp [hact, not_lt.mp hr, hC]
      · rw [hdead]
        simp only [Bool.false_eq_true, false_iff]
        intro hcon
        exact hC hcon.2.2
  · have hact' : p.active = false := by
      cases h : p.active
      · rfl
      · exact absurd h hact
    rw [update_inactive m 0 0 hact']
    rw [hdead]
    simp [hact]

/-- C4 counterexample: a particle at radius `10 < Rs = 60` is captured by
the update, yet it survives the per-frame filter — after the filter a
captured particle does remain in its collection. -/
theorem c4_counterexample :
    pInside.r < 2 * 30 ∧ framePass 30 [pInside] ≠ [] := by
  refine ⟨by rw [pInside_r]; norm_num, ?_⟩
  rw [framePass_singleton]
  have hd : (pInside.update 30 0 0).dead = false := by
    rw [update_captured 30 0 0 rfl (by rw [pInside_r]; norm_num)]
    rfl
  rw [if_neg (by simp [hd])]
  simp

/-- C4 (amended): the per-frame filter destroys a particle exactly when
it has escaped — it was live, not captured this step, and its updated
distance from the center exceeds `WIDTH = 800`; a captured particle
(radius inside `Rs`) is marked inactive but never removed. -/
theorem c4_removed_iff_escaped (p : Photon) (m : ℝ) (hdead : p.dead = false) :
    framePass m [p] = [] ↔
      (p.active = true ∧ 2 * m ≤ p.r ∧
        WIDTH < Real.sqrt ((p.update m 0 0).x_raw ^ 2 + (p.update m 0 0).y_raw ^ 2)) := by
  rw [framePass_singleton, ← update_dead_iff p m hdead]
  split_ifs with h
  · simp [h]
  · simp [h]

/-- Witness for the amended C4 at a concrete captured particle. -/
theorem c4_witness :
    pInside.dead = false ∧
    (framePass 30 [pInside] = [] ↔
      (pInside.active = true ∧ 2 * 30 ≤ pInside.r ∧
        WIDTH < Real.sqrt ((pInside.update 30 0 0).x_raw ^ 2 +
          (pInside.update 30 0 0).y_raw ^ 2))) :=
  ⟨rfl, c4_removed_iff_escaped pInside 30 rfl⟩

end Sideview

/-- C3 counterexample: the two integrators do not apply the same
acceleration function.  At position `(4, 0, 0)` (embedded at `z = 0`),
unit velocity `(0, 1, 0)`, `mass = 30`, spin `0`, the ray-marcher's
bending force has first component `-3/16`, while the particle
integrator's acceleration has first component `-7.5`: the shader's force
ignores mass and angular momentum. -/
theorem c3_counterexample :
    (Raytrace.shaderForce ⟨4, 0, 0⟩).x ≠
      (Sideview.Photon.accel false 0 30 4 0 0 1).1 := by
  have h3 : Real.sqrt ((4 : ℝ) * 4 + 0 * 0 + 0 * 0) = 4 :=
    Sideview.sqrtEval (by norm_num) (by norm_num)
  have h2 : Real.sqrt ((4 : ℝ) * 4 + 0 * 0) = 4 :=
    Sideview.sqrtEval (by norm_num) (by norm_num)
  rw [Sideview.accel_nonkerr _ _ _ _ _ (by simp)]
  simp only [Raytrace.shaderForce, Raytrace.Vec3.len, Raytrace.Vec3.normalize,
    Raytrace.Vec3.smul, Raytrace.Vec3.neg, Sideview.G]
  rw [h3, h2]
  norm_num

/-- C3 (amended): the ray-marcher does not call the particle integrator's
acceleration function — its force at position `p` is the fixed radial
inverse-square term `-(3/r²)·p̂`, independent of mass, spin and ray
direction; it coincides with the particle integrator's acceleration only
in the special case `G·mass = 3` with zero angular momentum (velocity
parallel to position) and spin disabled, as this identity shows for every
`z = 0` position. -/
theorem c3_shader_is_fixed_force (x y : ℝ) :
    (Raytrace.shaderForce ⟨x, y, 0⟩).x = (Sideview.Photon.accel false 0 3 x y x y).1 ∧
    (Raytrace.shaderForce ⟨x, y, 0⟩).y = (Sideview.Photon.accel false 0 3 x y x y).2 ∧
    (Raytrace.shaderForce ⟨x, y, 0⟩).z = 0 := by
  have harg : x * x + y * y + 0 * 0 = x * x + y * y := by ring
  rw [Sideview.accel_nonkerr _ _ _ _ _ (by simp)]
  simp only [Raytrace.shaderForce, Raytrace.Vec3.len, Raytrace.Vec3.normalize,
    Raytrace.Vec3.smul, Raytrace.Vec3.neg, Sideview.G]
  rw [harg]
  set r := Real.sqrt (x * x + y * y) with hrdef
  have hsq : r ^ 2 = x * x + y * y := by
    rw [hrdef]
    exact Real.sq_sqrt (add_nonneg (mul_self_nonneg _) (mul_self_nonneg _))
  rw [← hsq]
  refine ⟨by ring, by ring, by ring⟩
